import Mathlib

/-!
Calamares locale module: `src/modules/locale/Config.cpp`.

A shallow embedding of the locale configuration object of the Calamares
installer, and proofs about it.

* Part 1 embeds the static function `loadLocales` together with the Qt text
  primitives it calls.
* Part 2 embeds the `Config` object: its fields, the two signal handlers that
  the constructor connects, and its public operations.

Conventions of the embedding.

* A `QByteArray` is the list of its bytes, each byte written as the Latin-1
  character with that code.
* A `QString` is the list of its characters.
* What the code obtains from its surroundings (file system, child processes,
  the Qt locale database, the zone table, build flags) is a field of the
  structure `Host`. Small helpers of the repository that are defined in other
  files are written out, each marked as modelled.
* Emitting a signal runs the handlers that the constructor of `Config`
  connects; listeners connected elsewhere are not part of this file.
* Logging (`cWarning`, `cDebug`) has no effect on any value and is left out.
-/

namespace Calamares

/-! ## Part 1: text primitives of Qt -/

/-- A `QByteArray`, one Latin-1 character per byte. -/
abbrev QByteArray := List Char

/-- A `QString`. -/
abbrev QString := List Char

/-- The whitespace test of `QByteArray::simplified`: the C-locale `isspace`,
that is `\t \n \v \f \r` and the blank. -/
def isAsciiSpace (c : Char) : Bool :=
  (9 ≤ c.toNat && c.toNat ≤ 13) || c.toNat == 32

/-- The whitespace test of `QString::simplified`, `QChar::isSpace`: the ASCII
whitespace, NEL (0x85), the no-break space (0xA0) and the Unicode separator
characters. -/
def isQCharSpace (c : Char) : Bool :=
  (9 ≤ c.toNat && c.toNat ≤ 13) || c.toNat == 32 || c.toNat == 0x85 || c.toNat == 0xA0
    || c.toNat == 0x1680 || (0x2000 ≤ c.toNat && c.toNat ≤ 0x200A)
    || c.toNat == 0x2028 || c.toNat == 0x2029 || c.toNat == 0x202F
    || c.toNat == 0x205F || c.toNat == 0x3000

/-- The copying loop of `simplified`: `pending` records that a run of
whitespace has been skipped after a word, so that a single blank is owed
before the next word character. No blank is ever written at the end. -/
def simplifiedLoop (isSpace : Char → Bool) : Bool → List Char → List Char
  | _, [] => []
  | pending, c :: cs =>
    if isSpace c then simplifiedLoop isSpace true cs
    else if pending then ' ' :: c :: simplifiedLoop isSpace false cs
    else c :: simplifiedLoop isSpace false cs

/-- Qt `simplified()`: whitespace is removed from both ends and every internal
run of whitespace becomes one blank. -/
def simplifiedWith (isSpace : Char → Bool) (s : List Char) : List Char :=
  simplifiedLoop isSpace false (s.dropWhile isSpace)

/-- The function `QByteArray::simplified`. -/
def QByteArray.simplified (s : QByteArray) : QByteArray := simplifiedWith isAsciiSpace s

/-- The function `QString::simplified`. -/
def QString.simplified (s : QString) : QString := simplifiedWith isQCharSpace s

/-- The function `QString::fromLatin1( const QByteArray& )` of Qt 5: every byte
becomes the character with the same code, and the conversion stops at the
first NUL byte. -/
def fromLatin1 (b : QByteArray) : QString := b.takeWhile (fun c => c != Char.ofNat 0)

/-- The function `QByteArray::split(sep)`: the pieces between separators, empty pieces
included; the empty array splits into one empty piece. -/
def splitBytes (sep : Char) : QByteArray → List QByteArray
  | [] => [[]]
  | c :: cs =>
    if c = sep then [] :: splitBytes sep cs
    else
      match splitBytes sep cs with
      | [] => [[c]]
      | piece :: rest => (c :: piece) :: rest

/-- The functions `startsWith` of `QByteArray` and `QString` (case sensitive). -/
def startsWith (s pat : List Char) : Bool := pat.isPrefixOf s

/-- The function `QString::endsWith` (case sensitive). -/
def endsWith (s pat : List Char) : Bool := pat.isSuffixOf s

/-- The function `QString::remove(QChar)`: every occurrence of the character is removed. -/
def removeChar (s : QString) (c : Char) : QString := s.filter (fun d => d != c)

/-- The function `QString::chop(n)`: the last `n` characters are removed. -/
def chop (s : QString) (n : Nat) : QString := s.take (s.length - n)

/-- Case folding as far as it matters for an ASCII pattern: `A`..`Z` fold to
`a`..`z`. No character outside ASCII folds to an ASCII letter, digit or
hyphen, so for the patterns used here this is Qt's case-insensitive
comparison. -/
def foldCase (c : Char) : Char :=
  if 65 ≤ c.toNat ∧ c.toNat ≤ 90 then Char.ofNat (c.toNat + 32) else c

/-- The pattern matches at the very start of the text, ignoring case. -/
def startsWithCI : List Char → List Char → Bool
  | _, [] => true
  | [], _ :: _ => false
  | c :: cs, p :: ps => foldCase c == foldCase p && startsWithCI cs ps

/-- The function `QString::contains(pat, Qt::CaseInsensitive)`. -/
def containsCI : QString → List Char → Bool
  | [], pat => pat.isEmpty
  | c :: cs, pat => startsWithCI (c :: cs) pat || containsCI cs pat

/-! ## Part 1: the host and `loadLocales` -/

/-- A zone of the zone table (`CalamaresUtils::Locale::TZZone`). The code
handles zones through `const TZZone*`; `addr` stands for the address of the
object, so that two records are equal exactly when the pointers are. -/
structure TZZone where
  addr : Nat
  region : QString
  zone : QString
  country : QString
deriving DecidableEq

/-- A region of the zone table (`CalamaresUtils::Locale::TZRegion`): its key
and its zones. -/
structure TZRegion where
  key : QString
  zones : List TZZone
deriving DecidableEq

/-- The record `LocaleConfiguration`: the language, its BCP47 tag, the nine
`LC_` categories and the two flags that record an explicit choice. -/
structure LocaleConfiguration where
  m_lang : QString
  m_languageLocaleBcp47 : QString
  lc_numeric : QString
  lc_time : QString
  lc_monetary : QString
  lc_paper : QString
  lc_name : QString
  lc_address : QString
  lc_telephone : QString
  lc_measurement : QString
  lc_identification : QString
  explicit_lang : Bool
  explicit_lc : Bool
deriving DecidableEq

/-- A region and zone name (`CalamaresUtils::GeoIP::RegionZonePair`). -/
abbrev RegionZonePair := QString × QString

/-- Everything `Config.cpp` takes from its surroundings. -/
structure Host where
  /-- The function `QFile::exists` for a path. -/
  fileExists : QString → Bool
  /-- What `readAll` yields when `QFile::open(ReadOnly | Text)` succeeds on a
  path, `none` when the file cannot be opened. -/
  fileOpen : QString → Option QByteArray
  /-- Standard output of the child process `locale -a`. -/
  localeA : QByteArray
  /-- The table `TZRegion::fromZoneTab()`. -/
  timezoneData : List TZRegion
  /-- The value of `QLocale().name()`. -/
  systemLocaleName : QString
  /-- The function `LocaleConfiguration::fromLanguageAndLocation`. -/
  fromLanguageAndLocation : QString → List QString → QString → LocaleConfiguration
  /-- The BCP47 tag that `LocaleConfiguration::setLanguage` derives from a locale name. -/
  bcp47Name : QString → QString
  /-- The function `LocaleConfiguration::isEmpty`. -/
  isEmpty : LocaleConfiguration → Bool
  /-- The function `LocaleConfiguration::toMap`, as the list of its entries. -/
  toMap : LocaleConfiguration → List (QString × QString)
  /-- The value of `Calamares::Settings::instance()->doChroot()`. -/
  doChroot : Bool
  /-- Whether the build defines `DEBUG_TIMEZONES`. -/
  debugTimezones : Bool
  /-- Whether the build defines `__FreeBSD__`. -/
  freeBSD : Bool
  /-- The value of `splitTZString( QTimeZone::systemTimeZoneId() )`. -/
  systemTimeZone : RegionZonePair

/-- The path of the list of supported locales that is tried first. -/
def supportedPath : QString := "/usr/share/i18n/SUPPORTED".toList

/-- Lines 66-70: every line of the SUPPORTED file, simplified; nothing is skipped. -/
def supportedLines (ba : QByteArray) : List QString :=
  (splitBytes '\n' ba).map (fun line => fromLatin1 (QByteArray.simplified line))

/-- The body of the loop in lines 91-111 for one line: `none` where the loop
says `continue`, otherwise the string that is appended. -/
def localeGenLine (line : QByteArray) : Option QString :=
  if startsWith line "## ".toList || startsWith line "# ".toList
      || QByteArray.simplified line == "#".toList then
    none
  else
    let lineString := fromLatin1 (QByteArray.simplified line)
    let lineString := if startsWith lineString "#".toList then removeChar lineString '#' else lineString
    let lineString := QString.simplified lineString
    if lineString.isEmpty then none else some lineString

/-- Lines 90-111: the lines kept from `locale.gen` or from `locale -a`. -/
def genLines (ba : QByteArray) : List QString :=
  (splitBytes '\n' ba).filterMap localeGenLine

/-- Lines 74-89: the bytes read when the SUPPORTED file is not used, from the
file at `localeGenPath` when it opens and from `locale -a` otherwise. -/
def genSource (h : Host) (localeGenPath : QString) : QByteArray :=
  match h.fileOpen localeGenPath with
  | some ba => ba
  | none => h.localeA

/-- Lines 57-112: the contents of `localeGenLines` when the branches are done. -/
def candidateLines (h : Host) (localeGenPath : QString) : List QString :=
  match h.fileExists supportedPath, h.fileOpen supportedPath with
  | true, some ba => supportedLines ba
  | _, _ => genLines (genSource h localeGenPath)

/-- The lambda `notUtf8` of line 129. -/
def notUtf8 (s : QString) : Bool :=
  !containsCI s "UTF-8".toList && !containsCI s "utf8".toList

/-- The lambda `unredundant` of line 137, as a function of the old value. -/
def unredundant (s : QString) : QString :=
  QString.simplified (if endsWith s " UTF-8".toList then chop s 6 else s)

/-- The loop of `std::remove_if`: `kept` holds, in reverse, the elements
already moved to the front of the range. -/
def removeIfLoop {α : Type} (p : α → Bool) : List α → List α → List α
  | [], kept => kept.reverse
  | x :: xs, kept => if p x then removeIfLoop p xs kept else removeIfLoop p xs (x :: kept)

/-- Lines 132-133, `erase( remove_if( begin, end, p ), end )`: the elements
before the iterator that `remove_if` returns. -/
def eraseRemoveIf {α : Type} (p : α → Bool) (l : List α) : List α :=
  removeIfLoop p l []

/-- The loop of `std::for_each` with a function that updates each element in place. -/
def forEachUpdate {α : Type} (f : α → α) : List α → List α
  | [] => []
  | x :: xs => f x :: forEachUpdate f xs

/-- The function `loadLocales` (lines 48-147). -/
def loadLocales (h : Host) (localeGenPath : QString) : List QString :=
  let localeGenLines := candidateLines h localeGenPath
  if localeGenLines.isEmpty then
    localeGenLines
  else
    let localeGenLines := eraseRemoveIf notUtf8 localeGenLines
    forEachUpdate unredundant localeGenLines

/-! ## Part 1: the result of `loadLocales` in the words of the specification -/

/-- Spec wording: a line names a UTF-8 locale when it contains `UTF-8` or
`utf8`, compared without regard to case. -/
def isUtf8Line (s : QString) : Bool :=
  containsCI s "UTF-8".toList || containsCI s "utf8".toList

/-- Spec wording: one trailing ` UTF-8` removed. -/
def withoutTrailingUtf8 (s : QString) : QString :=
  if " UTF-8".toList.isSuffixOf s then (s.reverse.drop 6).reverse else s

/-- Spec wording of the result of `loadLocales`: the candidate lines that name
a UTF-8 locale, in source order, each with one trailing ` UTF-8` removed and
then whitespace-simplified. -/
def specLocales (lines : List QString) : List QString :=
  (lines.filter isUtf8Line).map (fun s => QString.simplified (withoutTrailingUtf8 s))

/-- A byte other than 0x85 and 0xA0, the two bytes that `QString` counts as
whitespace although `QByteArray` does not. -/
def plainByte (c : Char) : Bool := c.toNat < 256 && c.toNat != 0x85 && c.toNat != 0xA0

/-! ## Part 2: the `Config` object -/

/-- The values this module writes to, and compares with, the global storage:
a `QVariant` that is invalid (also the answer for a missing key), holds a
`QString`, or holds a map of strings. Between these kinds `QVariant`
comparison is plain equality. -/
inductive QVariant where
  | invalid
  | string (s : QString)
  | map (entries : List (QString × QString))
deriving DecidableEq

/-- The shared store `Calamares::GlobalStorage`: the value under each key. -/
abbrev GlobalStorage := String → QVariant

/-- The function `GlobalStorage::insert`. -/
def GlobalStorage.insert (gs : GlobalStorage) (key : String) (v : QVariant) : GlobalStorage :=
  fun k => if k = key then v else gs k

/-- The function `GlobalStorage::value`. -/
def GlobalStorage.value (gs : GlobalStorage) (key : String) : QVariant := gs key

/-- One call of `QProcess::execute`. -/
structure ProcessCall where
  program : QString
  arguments : List QString
deriving DecidableEq

/-- A value of the module's configuration map. -/
inductive ConfigValue where
  | bool (b : Bool)
  | string (s : QString)
  | other
deriving DecidableEq

/-- The configuration map handed to `setConfigurationMap`. -/
abbrev ConfigurationMap := String → Option ConfigValue

/-- Modelled from the spec: `CalamaresUtils::getString` is defined outside
src/; it reads one option of the configuration option set, the string stored
under the key, and is empty when the key is missing or holds no string. -/
def getString (m : ConfigurationMap) (key : String) : QString :=
  match m key with
  | some (ConfigValue.string s) => s
  | _ => []

/-- Modelled from the spec: `CalamaresUtils::getBool` is defined outside src/;
it reads one flag of the configuration option set, the boolean stored under
the key, and is the given default when the key is missing or holds no boolean. -/
def getBool (m : ConfigurationMap) (key : String) (d : Bool) : Bool :=
  match m key with
  | some (ConfigValue.bool b) => b
  | _ => d

/-- Modelled from the spec: `RegionZonePair::isValid` is defined outside src/;
a pair names a location when region and zone are both present. -/
def RegionZonePair.isValid (p : RegionZonePair) : Bool := !p.1.isEmpty && !p.2.isEmpty

/-- Modelled from the spec: the default constructor of `LocaleConfiguration`
is defined outside src/; the configuration record starts empty, nothing made
explicit. -/
def LocaleConfiguration.empty : LocaleConfiguration :=
  { m_lang := [], m_languageLocaleBcp47 := [], lc_numeric := [], lc_time := [],
    lc_monetary := [], lc_paper := [], lc_name := [], lc_address := [],
    lc_telephone := [], lc_measurement := [], lc_identification := [],
    explicit_lang := false, explicit_lc := false }

/-- Modelled from the spec: `LocaleConfiguration::language` is defined outside
src/; it is the one language field of the record. -/
def LocaleConfiguration.language (c : LocaleConfiguration) : QString := c.m_lang

/-- Modelled from the spec: `LocaleConfiguration::setLanguage` is defined
outside src/; it stores the language field together with the locale tag
derived from it. -/
def LocaleConfiguration.setLanguage (h : Host) (c : LocaleConfiguration) (localeName : QString) :
    LocaleConfiguration :=
  { c with m_lang := localeName, m_languageLocaleBcp47 := h.bcp47Name localeName }

/-- Modelled from the spec: `LocaleConfiguration::toBcp47` is defined outside
src/; it is the locale tag of the selected language. -/
def LocaleConfiguration.toBcp47 (c : LocaleConfiguration) : QString := c.m_languageLocaleBcp47

/-- The nine `LC_` fields in the order in which the code assigns them. -/
def LocaleConfiguration.lcFields (c : LocaleConfiguration) : List QString :=
  [c.lc_numeric, c.lc_time, c.lc_monetary, c.lc_paper, c.lc_name, c.lc_address,
   c.lc_telephone, c.lc_measurement, c.lc_identification]

/-- Modelled from the spec: `CStringPairList::find< TZRegion >` is defined
outside src/; a region name is looked up against the region table, the first
region with that key is the answer. -/
def findRegion (table : List TZRegion) (key : QString) : Option TZRegion :=
  table.find? (fun r => r.key == key)

/-- Modelled from the spec: `CStringPairList::find< TZZone >` is defined
outside src/; a zone name is looked up in the zones of one region, the first
zone with that key is the answer. -/
def findZone (zones : List TZZone) (key : QString) : Option TZZone :=
  zones.find? (fun z => z.zone == key)

/-- The data members of `Config` that this file reads or writes. -/
structure Config where
  m_localeGenLines : List QString
  m_currentLocation : Option TZZone
  m_selectedLocaleConfiguration : LocaleConfiguration
  m_adjustLiveTimezone : Bool
  m_startingTimezone : RegionZonePair

/-- The object together with the two things outside it that it changes: the
global storage and the list of commands run so far. -/
structure World where
  config : Config
  gs : GlobalStorage
  executed : List ProcessCall

/-- The accessor `Config::currentLocation`. -/
def Config.currentLocation (c : Config) : Option TZZone := c.m_currentLocation

/-- The accessor `Config::supportedLocales`. -/
def Config.supportedLocales (c : Config) : List QString := c.m_localeGenLines

/-- The function `Config::automaticLocaleConfiguration` (lines 256-266). -/
def Config.automaticLocaleConfiguration (h : Host) (c : Config) : LocaleConfiguration :=
  match c.currentLocation with
  | none => LocaleConfiguration.empty
  | some location =>
    h.fromLanguageAndLocation h.systemLocaleName c.supportedLocales location.country

/-- The function `Config::localeConfiguration` (lines 268-272). -/
def Config.localeConfiguration (h : Host) (c : Config) : LocaleConfiguration :=
  if h.isEmpty c.m_selectedLocaleConfiguration then c.automaticLocaleConfiguration h
  else c.m_selectedLocaleConfiguration

/-- The handler connected to `currentLanguageStatusChanged` (lines 167-170). -/
def onCurrentLanguageStatusChanged (w : World) : World :=
  let tag := QVariant.string w.config.m_selectedLocaleConfiguration.toBcp47
  { w with gs := w.gs.insert "locale" tag }

/-- The handler connected to `currentLocationChanged` (lines 172-196). It
dereferences the current location, so it has no result when that is null.
The loop of lines 190-194 copies every entry of the map, which the model
stores as it is. -/
def onCurrentLocationChanged (h : Host) (w : World) : Option World :=
  match w.config.currentLocation with
  | none => none
  | some location =>
    let locationChanged := (QVariant.string location.region != w.gs.value "locationRegion")
      || (QVariant.string location.zone != w.gs.value "locationZone")
    let gs := w.gs.insert "locationRegion" (QVariant.string location.region)
    let gs := gs.insert "locationZone" (QVariant.string location.zone)
    let executed :=
      if locationChanged && w.config.m_adjustLiveTimezone then
        w.executed ++ [{ program := "timedatectl".toList,
                         arguments := ["set-timezone".toList,
                                       location.region ++ ['/'] ++ location.zone] }]
      else w.executed
    let gs := gs.insert "localeConf" (QVariant.map (h.toMap (w.config.localeConfiguration h)))
    some { w with gs := gs, executed := executed }

/-- The function `Config::setCurrentLocation( const TZZone* )` (lines 224-253);
`none` is the null pointer. The signal `currentLCStatusChanged` has no
handler in this file. -/
def setCurrentLocation (h : Host) (location : Option TZZone) (w : World) : Option World :=
  if location != w.config.m_currentLocation then
    let w : World := { w with config := { w.config with m_currentLocation := location } }
    let newLocale := w.config.automaticLocaleConfiguration h
    let w : World :=
      if !w.config.m_selectedLocaleConfiguration.explicit_lang then
        onCurrentLanguageStatusChanged
          { w with config := { w.config with m_selectedLocaleConfiguration :=
              w.config.m_selectedLocaleConfiguration.setLanguage h newLocale.language } }
      else w
    let w : World :=
      if !w.config.m_selectedLocaleConfiguration.explicit_lc then
        { w with config := { w.config with m_selectedLocaleConfiguration :=
            { w.config.m_selectedLocaleConfiguration with
              lc_numeric := newLocale.lc_numeric
              lc_time := newLocale.lc_time
              lc_monetary := newLocale.lc_monetary
              lc_paper := newLocale.lc_paper
              lc_name := newLocale.lc_name
              lc_address := newLocale.lc_address
              lc_telephone := newLocale.lc_telephone
              lc_measurement := newLocale.lc_measurement
              lc_identification := newLocale.lc_identification } } }
      else w
    onCurrentLocationChanged h w
  else some w

/-- Lines 211-212: the zone of that name in the region of that name. -/
def lookupZone (h : Host) (regionName zoneName : QString) : Option TZZone :=
  match findRegion h.timezoneData regionName with
  | some region => findZone region.zones zoneName
  | none => none

/-- The function `Config::setCurrentLocation( const QString&, const QString& )`
(lines 207-222). The function calls itself; `fuel` bounds the number of
nested calls, and there is no result when it runs out. -/
def setCurrentLocationByName (h : Host) : Nat → QString → QString → World → Option World
  | 0, _, _, _ => none
  | fuel + 1, regionName, zoneName, w =>
    match lookupZone h regionName zoneName with
    | some zone => setCurrentLocation h (some zone) w
    | none => setCurrentLocationByName h fuel "America".toList "New_York".toList w

/-- The function `Config::setLanguageExplicitly` (lines 274-281). -/
def setLanguageExplicitly (h : Host) (language : QString) (w : World) : World :=
  onCurrentLanguageStatusChanged
    { w with config := { w.config with m_selectedLocaleConfiguration :=
        { (w.config.m_selectedLocaleConfiguration.setLanguage h language) with
          explicit_lang := true } } }

/-- The function `Config::setLCLocaleExplicitly` (lines 283-299). -/
def setLCLocaleExplicitly (locale : QString) (w : World) : World :=
  { w with config := { w.config with m_selectedLocaleConfiguration :=
      { w.config.m_selectedLocaleConfiguration with
        lc_numeric := locale
        lc_time := locale
        lc_monetary := locale
        lc_paper := locale
        lc_name := locale
        lc_address := locale
        lc_telephone := locale
        lc_measurement := locale
        lc_identification := locale
        explicit_lc := true } } }

/-- The function `Config::setConfigurationMap` (lines 331-378). -/
def setConfigurationMap (h : Host) (configurationMap : ConfigurationMap) (w : World) : World :=
  let localeGenPath := getString configurationMap "localeGenPath"
  let localeGenPath := if localeGenPath.isEmpty then "/etc/locale.gen".toList else localeGenPath
  let m_localeGenLines := loadLocales h localeGenPath
  let m_adjustLiveTimezone := getBool configurationMap "adjustLiveTimezone" h.doChroot
  let m_adjustLiveTimezone :=
    if h.debugTimezones && m_adjustLiveTimezone then false else m_adjustLiveTimezone
  let m_adjustLiveTimezone :=
    if h.freeBSD && m_adjustLiveTimezone then false else m_adjustLiveTimezone
  let region := getString configurationMap "region"
  let zone := getString configurationMap "zone"
  let m_startingTimezone : RegionZonePair :=
    if !region.isEmpty && !zone.isEmpty then (region, zone)
    else ("America".toList, "New_York".toList)
  let m_startingTimezone :=
    if getBool configurationMap "useSystemTimezone" false then
      if RegionZonePair.isValid h.systemTimeZone then h.systemTimeZone else m_startingTimezone
    else m_startingTimezone
  { w with config := { w.config with
      m_localeGenLines := m_localeGenLines
      m_adjustLiveTimezone := m_adjustLiveTimezone
      m_startingTimezone := m_startingTimezone } }

/-- A job of the installer; this module creates `SetTimezoneJob( region, zone )`. -/
inductive Job where
  | setTimezone (region zone : QString)
deriving DecidableEq

/-- The function `Config::createJobs` (lines 380-393): the list it returns, and the
object after the call. -/
def createJobs (w : World) : List Job × World :=
  let list : List Job := []
  let list :=
    match w.config.currentLocation with
    | some location => list ++ [Job.setTimezone location.region location.zone]
    | none => list
  (list, w)

/-- The operations of `Config` as values, to speak about sequences of calls. -/
inductive Op where
  | setCurrentLocationByName (regionName zoneName : QString)
  | setCurrentLocation (location : Option TZZone)
  | setLanguageExplicitly (language : QString)
  | setLCLocaleExplicitly (locale : QString)
  | setConfigurationMap (configurationMap : ConfigurationMap)
  | createJobs

/-- One call; `fuel` is handed to the overload that calls itself. -/
def step (h : Host) (fuel : Nat) : Op → World → Option World
  | Op.setCurrentLocationByName r z, w => setCurrentLocationByName h fuel r z w
  | Op.setCurrentLocation location, w => setCurrentLocation h location w
  | Op.setLanguageExplicitly language, w => some (setLanguageExplicitly h language w)
  | Op.setLCLocaleExplicitly locale, w => some (setLCLocaleExplicitly locale w)
  | Op.setConfigurationMap m, w => some (setConfigurationMap h m w)
  | Op.createJobs, w => some (createJobs w).2

/-- A sequence of calls, one after the other. -/
def run (h : Host) (fuel : Nat) : List Op → World → Option World
  | [], w => some w
  | op :: ops, w =>
    match step h fuel op w with
    | some w' => run h fuel ops w'
    | none => none

/-- The call is not `setCurrentLocation( nullptr )`. -/
def Op.hasZone : Op → Bool
  | Op.setCurrentLocation none => false
  | _ => true

/-- The call is `setLanguageExplicitly`. -/
def Op.isSetLanguage : Op → Bool
  | Op.setLanguageExplicitly _ => true
  | _ => false

/-- The call is `setLCLocaleExplicitly`. -/
def Op.isSetLCLocale : Op → Bool
  | Op.setLCLocaleExplicitly _ => true
  | _ => false

/-! ## Sample hosts and states, used to evaluate the definitions -/

/-- Sample zone America/New_York. -/
def sampleNewYork : TZZone :=
  { addr := 1, region := "America".toList, zone := "New_York".toList, country := "US".toList }

/-- Sample zone Europe/Berlin. -/
def sampleBerlin : TZZone :=
  { addr := 2, region := "Europe".toList, zone := "Berlin".toList, country := "DE".toList }

/-- A sample zone table with two regions of one zone each. -/
def sampleTable : List TZRegion :=
  [{ key := "America".toList, zones := [sampleNewYork] },
   { key := "Europe".toList, zones := [sampleBerlin] }]

/-- A sample of `fromLanguageAndLocation`: the language follows the system
locale, the formats follow the country. -/
def sampleFromLanguageAndLocation (_language : QString) (_locales : List QString)
    (country : QString) : LocaleConfiguration :=
  let formats := if country = "DE".toList then "de_DE.UTF-8".toList else "en_US.UTF-8".toList
  { m_lang := "en_US.UTF-8".toList, m_languageLocaleBcp47 := "en".toList,
    lc_numeric := formats, lc_time := formats, lc_monetary := formats, lc_paper := formats,
    lc_name := formats, lc_address := formats, lc_telephone := formats,
    lc_measurement := formats, lc_identification := formats,
    explicit_lang := false, explicit_lc := false }

/-- A sample of `toMap`: the variables with a value, in the key order of a `QMap`. -/
def sampleToMap (c : LocaleConfiguration) : List (QString × QString) :=
  [("LANG".toList, c.m_lang), ("LC_ADDRESS".toList, c.lc_address),
   ("LC_IDENTIFICATION".toList, c.lc_identification),
   ("LC_MEASUREMENT".toList, c.lc_measurement), ("LC_MONETARY".toList, c.lc_monetary),
   ("LC_NAME".toList, c.lc_name), ("LC_NUMERIC".toList, c.lc_numeric),
   ("LC_PAPER".toList, c.lc_paper), ("LC_TELEPHONE".toList, c.lc_telephone),
   ("LC_TIME".toList, c.lc_time)].filter (fun kv => !kv.2.isEmpty)

/-- A sample host: the SUPPORTED file and `/etc/locale.gen` have the given
contents (`none`: the file is absent), `locale -a` prints the given bytes. -/
def sampleHost (supported localeGen : Option QByteArray) (localeA : QByteArray) : Host :=
  { fileExists := fun p => p = supportedPath && supported.isSome
    fileOpen := fun p =>
      if p = supportedPath then supported
      else if p = "/etc/locale.gen".toList then localeGen
      else none
    localeA := localeA
    timezoneData := sampleTable
    systemLocaleName := "en_US".toList
    fromLanguageAndLocation := sampleFromLanguageAndLocation
    bcp47Name := fun l => (l.takeWhile (fun c => c != '_')).map Char.toLower
    isEmpty := fun c => c.m_lang.isEmpty && c.lcFields.all List.isEmpty
    toMap := sampleToMap
    doChroot := true
    debugTimezones := false
    freeBSD := false
    systemTimeZone := ("Europe".toList, "Berlin".toList) }

/-- A sample host for the `Config` object; `/etc/locale.gen` lists two locales. -/
def sampleConfigHost : Host :=
  sampleHost none (some "en_US.UTF-8 UTF-8\n#de_DE.UTF-8 UTF-8\n".toList) []

/-- Modelled from the spec: the object right after construction (the member
defaults are in `Config.h`, outside src/): the configuration record starts
empty, no location is selected; the store is empty and nothing has run. -/
def freshWorld : World :=
  { config := { m_localeGenLines := [], m_currentLocation := none,
                m_selectedLocaleConfiguration := LocaleConfiguration.empty,
                m_adjustLiveTimezone := false, m_startingTimezone := ([], []) },
    gs := fun _ => QVariant.invalid,
    executed := [] }

/-- A sample state: the fresh object after `setConfigurationMap` with an
empty map on the sample host. -/
def sampleWorld : World := setConfigurationMap sampleConfigHost (fun _ => none) freshWorld

/-! ## Lemmas: the loops of `loadLocales` -/

theorem removeIfLoop_eq {α : Type} (p : α → Bool) (l kept : List α) :
    removeIfLoop p l kept = kept.reverse ++ l.filter (fun x => !p x) := by
  induction l generalizing kept with
  | nil => simp [removeIfLoop]
  | cons x xs ih =>
    by_cases hx : p x = true
    · simp [removeIfLoop, hx, ih]
    · simp [removeIfLoop, hx, ih]

theorem eraseRemoveIf_eq_filter {α : Type} (p : α → Bool) (l : List α) :
    eraseRemoveIf p l = l.filter (fun x => !p x) := by
  simp [eraseRemoveIf, removeIfLoop_eq]

theorem forEachUpdate_eq_map {α : Type} (f : α → α) (l : List α) :
    forEachUpdate f l = l.map f := by
  induction l with
  | nil => rfl
  | cons x xs ih => simp [forEachUpdate, ih]

theorem not_notUtf8 (s : QString) : (!notUtf8 s) = isUtf8Line s := by
  unfold notUtf8 isUtf8Line
  cases containsCI s "UTF-8".toList <;> cases containsCI s "utf8".toList <;> rfl

theorem chop_eq_reverse_drop (s : QString) (n : Nat) :
    chop s n = (s.reverse.drop n).reverse := by
  unfold chop
  rw [List.reverse_drop]
  simp

theorem unredundant_eq (s : QString) :
    unredundant s = QString.simplified (withoutTrailingUtf8 s) := by
  unfold unredundant withoutTrailingUtf8 endsWith
  by_cases h : " UTF-8".toList.isSuffixOf s = true
  · simp only [h, if_true, chop_eq_reverse_drop]
  · simp only [h, if_false]; simp

theorem loadLocales_eq_specLocales (h : Host) (localeGenPath : QString) :
    loadLocales h localeGenPath = specLocales (candidateLines h localeGenPath) := by
  unfold loadLocales specLocales
  simp only []
  by_cases he : (candidateLines h localeGenPath).isEmpty = true
  · rw [if_pos he]
    have : candidateLines h localeGenPath = [] := List.isEmpty_iff.mp he
    simp [this]
  · rw [if_neg he, forEachUpdate_eq_map, eraseRemoveIf_eq_filter]
    congr 1
    · funext s; exact unredundant_eq s
    · congr 1; funext s; exact not_notUtf8 s

/-! ### Facts about `simplified` -/

theorem mem_simplifiedLoop (sp : Char → Bool) (s : List Char) (p : Bool) (c : Char)
    (hc : c ∈ simplifiedLoop sp p s) : c ∈ s ∨ c = ' ' := by
  induction s generalizing p with
  | nil => simp [simplifiedLoop] at hc
  | cons d ds ih =>
    unfold simplifiedLoop at hc
    split at hc
    · rcases ih _ hc with h | h
      · exact Or.inl (List.mem_cons_of_mem _ h)
      · exact Or.inr h
    · split at hc
      · simp only [List.mem_cons] at hc
        rcases hc with h | h | h
        · exact Or.inr h
        · exact Or.inl (by simp [h])
        · rcases ih _ h with h | h
          · exact Or.inl (List.mem_cons_of_mem _ h)
          · exact Or.inr h
      · simp only [List.mem_cons] at hc
        rcases hc with h | h
        · exact Or.inl (by simp [h])
        · rcases ih _ h with h | h
          · exact Or.inl (List.mem_cons_of_mem _ h)
          · exact Or.inr h

theorem mem_simplifiedWith (sp : Char → Bool) (s : List Char) (c : Char)
    (hc : c ∈ simplifiedWith sp s) : c ∈ s ∨ c = ' ' := by
  rcases mem_simplifiedLoop sp _ _ c hc with h | h
  · exact Or.inl ((List.dropWhile_sublist sp).subset h)
  · exact Or.inr h

/-- A text that starts with a non-blank keeps its first character. -/
theorem simplifiedWith_cons_of_not_space (sp : Char → Bool) (c : Char) (cs : List Char)
    (hc : sp c = false) :
    simplifiedWith sp (c :: cs) = c :: simplifiedLoop sp false cs := by
  simp [simplifiedWith, List.dropWhile, hc, simplifiedLoop]

/-- The simplified text is empty or starts with a non-blank character of the text. -/
theorem simplifiedWith_head (sp : Char → Bool) (s : List Char) :
    simplifiedWith sp s = [] ∨
      ∃ c t, simplifiedWith sp s = c :: t ∧ sp c = false ∧ c ∈ s := by
  induction s with
  | nil => left; simp [simplifiedWith, simplifiedLoop]
  | cons d ds ih =>
    by_cases hd : sp d = true
    · have : simplifiedWith sp (d :: ds) = simplifiedWith sp ds := by
        simp [simplifiedWith, List.dropWhile, hd]
      rw [this]
      rcases ih with h | ⟨c, t, h1, h2, h3⟩
      · exact Or.inl h
      · exact Or.inr ⟨c, t, h1, h2, List.mem_cons_of_mem _ h3⟩
    · have hd' : sp d = false := by simpa using hd
      right
      exact ⟨d, _, simplifiedWith_cons_of_not_space sp d ds hd', hd', by simp⟩

theorem mem_splitBytes (sep : Char) (ba : QByteArray) (piece : QByteArray)
    (hp : piece ∈ splitBytes sep ba) (c : Char) (hc : c ∈ piece) : c ∈ ba := by
  induction ba generalizing piece with
  | nil =>
    simp [splitBytes] at hp
    subst hp
    simp at hc
  | cons d ds ih =>
    unfold splitBytes at hp
    split at hp
    · simp only [List.mem_cons] at hp
      rcases hp with h | h
      · subst h; simp at hc
      · exact List.mem_cons_of_mem _ (ih piece h hc)
    · split at hp
      · simp only [List.mem_singleton] at hp
        subst hp
        simp only [List.mem_singleton] at hc
        subst hc
        simp
      · rename_i piece0 rest heq
        simp only [List.mem_cons] at hp
        rcases hp with h | h
        · subst h
          simp only [List.mem_cons] at hc
          rcases hc with h | h
          · subst h; simp
          · exact List.mem_cons_of_mem _ (ih piece0 (by rw [heq]; simp) h)
        · exact List.mem_cons_of_mem _ (ih piece (by rw [heq]; simp [h]) hc)

theorem asciiSpace_of_qcharSpace (c : Char) (hb : plainByte c = true)
    (hq : isQCharSpace c = true) : isAsciiSpace c = true := by
  unfold plainByte at hb
  unfold isQCharSpace at hq
  unfold isAsciiSpace
  simp only [Bool.or_eq_true, Bool.and_eq_true, decide_eq_true_eq, beq_iff_eq, bne_iff_ne,
    ne_eq] at hb hq ⊢
  omega

theorem startsWith_hash_cons (c : Char) (t : List Char) :
    startsWith (c :: t) "#".toList = decide (c = '#') := by
  have : "#".toList = ['#'] := rfl
  rw [this]
  simp [startsWith, List.isPrefixOf]
  by_cases h : c = '#'
  · simp [h]
  · simp [h]; exact fun h' => h h'.symm

theorem startsWith_hash_nil : startsWith [] "#".toList = false := by
  decide

/-- What the loop body of the second branch appends starts with a character
that is neither `#` nor whitespace. -/
theorem localeGenLine_head (line : QByteArray) (l : QString)
    (hb : ∀ c ∈ line, plainByte c = true) (hl : localeGenLine line = some l) :
    ∃ c t, l = c :: t ∧ c ≠ '#' ∧ isQCharSpace c = false := by
  unfold localeGenLine at hl
  split at hl
  · exact absurd hl (by simp)
  · by_cases hs : startsWith (fromLatin1 (QByteArray.simplified line)) "#".toList = true
    · -- every `#` has been removed
      simp only [hs, if_true] at hl
      split at hl
      · exact absurd hl (by simp)
      · injection hl with hl
        rcases simplifiedWith_head isQCharSpace
            (removeChar (fromLatin1 (QByteArray.simplified line)) '#') with
          h0 | ⟨c, t, h1, h2, h3⟩
        · rename_i hne
          exfalso; apply hne
          unfold QString.simplified
          rw [h0]; rfl
        · refine ⟨c, t, ?_, ?_, h2⟩
          · rw [← hl]; exact h1
          · unfold removeChar at h3
            simp only [List.mem_filter, bne_iff_ne, ne_eq] at h3
            exact h3.2
    · simp only [hs] at hl
      simp only [Bool.false_eq_true, if_false] at hl
      split at hl
      · exact absurd hl (by simp)
      · injection hl with hl
        rename_i hne
        rcases simplifiedWith_head isAsciiSpace line with h0 | ⟨c, t, h1, h2, h3⟩
        · exfalso; apply hne
          unfold QByteArray.simplified
          rw [h0]; rfl
        · have hq : isQCharSpace c = false := by
            by_contra hq
            have := asciiSpace_of_qcharSpace c (hb c h3) (by simpa using hq)
            rw [h2] at this
            exact absurd this (by simp)
          by_cases h0 : c = Char.ofNat 0
          · -- the conversion stops at once and nothing is left
            exfalso; apply hne
            unfold QByteArray.simplified fromLatin1
            rw [h1]
            simp [h0, QString.simplified, simplifiedWith, simplifiedLoop]
          · have hconv : fromLatin1 (QByteArray.simplified line)
                = c :: t.takeWhile (fun d => d != Char.ofNat 0) := by
              have hb0 : (c != Char.ofNat 0) = true := by simpa using h0
              unfold QByteArray.simplified fromLatin1
              rw [h1]
              simp only [List.takeWhile, hb0]
            have hc : c ≠ '#' := by
              intro hc
              apply hs
              rw [hconv, startsWith_hash_cons]
              simp [hc]
            refine ⟨c, simplifiedLoop isQCharSpace false
              (t.takeWhile (fun d => d != Char.ofNat 0)), ?_, hc, hq⟩
            rw [← hl, hconv]
            unfold QString.simplified
            exact simplifiedWith_cons_of_not_space isQCharSpace c _ hq

/-- The function `unredundant` keeps a first character that is neither `#` nor whitespace,
or leaves nothing at all. -/
theorem unredundant_no_hash (c : Char) (t : List Char) (hc : c ≠ '#')
    (hq : isQCharSpace c = false) :
    startsWith (unredundant (c :: t)) "#".toList = false := by
  have key : ∀ k, startsWith (QString.simplified ((c :: t).take k)) "#".toList = false := by
    intro k
    cases k with
    | zero => exact startsWith_hash_nil
    | succ k =>
      rw [List.take_succ_cons]
      unfold QString.simplified
      rw [simplifiedWith_cons_of_not_space isQCharSpace c _ hq, startsWith_hash_cons]
      simp [hc]
  unfold unredundant
  split
  · exact key _
  · have := key (c :: t).length
    rwa [List.take_length] at this

/-! ### `simplified` keeps an occurrence of a pattern without whitespace -/

theorem foldCase_of_space (c : Char) (hc : isQCharSpace c = true) : foldCase c = c := by
  unfold isQCharSpace at hc
  unfold foldCase
  simp only [Bool.or_eq_true, Bool.and_eq_true, decide_eq_true_eq, beq_iff_eq] at hc
  rw [if_neg]
  omega

theorem matchesNoSpace_of_forall (pat : List Char)
    (hp : ∀ q ∈ pat, isQCharSpace (foldCase q) = false) :
    ∀ q ∈ pat, ∀ c, foldCase c = foldCase q → isQCharSpace c = false := by
  intro q hq c hc
  by_contra hs
  have hs' : isQCharSpace c = true := by simpa using hs
  have := foldCase_of_space c hs'
  rw [this] at hc
  rw [hc, hp q hq] at hs'
  exact absurd hs' (by simp)

theorem matchesNoSpace_upper :
    ∀ q ∈ "UTF-8".toList, ∀ c, foldCase c = foldCase q → isQCharSpace c = false :=
  matchesNoSpace_of_forall _ (by decide)

theorem matchesNoSpace_lower :
    ∀ q ∈ "utf8".toList, ∀ c, foldCase c = foldCase q → isQCharSpace c = false :=
  matchesNoSpace_of_forall _ (by decide)

theorem startsWithCI_nil (s : List Char) : startsWithCI s [] = true := by
  cases s <;> rfl

theorem startsWithCI_simplifiedLoop (pat : List Char)
    (hp : ∀ q ∈ pat, ∀ c, foldCase c = foldCase q → isQCharSpace c = false)
    (s : List Char) (hs : startsWithCI s pat = true) :
    startsWithCI (simplifiedLoop isQCharSpace false s) pat = true := by
  induction pat generalizing s with
  | nil => exact startsWithCI_nil _
  | cons q qs ih =>
    cases s with
    | nil => simp [startsWithCI] at hs
    | cons c cs =>
      simp only [startsWithCI, Bool.and_eq_true, beq_iff_eq] at hs
      have hc : isQCharSpace c = false := hp q (by simp) c hs.1
      have hqs : ∀ q' ∈ qs, ∀ c, foldCase c = foldCase q' → isQCharSpace c = false :=
        fun q' hq' => hp q' (List.mem_cons_of_mem _ hq')
      simp only [simplifiedLoop, hc, startsWithCI, Bool.and_eq_true, beq_iff_eq]
      exact ⟨hs.1, ih hqs cs hs.2⟩

theorem containsCI_cons (c : Char) (s pat : List Char) (h : containsCI s pat = true) :
    containsCI (c :: s) pat = true := by
  simp [containsCI, h]

theorem containsCI_simplifiedLoop (pat : List Char)
    (hp : ∀ q ∈ pat, ∀ c, foldCase c = foldCase q → isQCharSpace c = false)
    (hne : pat ≠ []) (s : List Char) (hs : containsCI s pat = true) (p : Bool) :
    containsCI (simplifiedLoop isQCharSpace p s) pat = true := by
  induction s generalizing p with
  | nil =>
    cases pat with
    | nil => exact absurd rfl hne
    | cons q qs => simp [containsCI] at hs
  | cons c cs ih =>
    simp only [containsCI, Bool.or_eq_true] at hs
    rcases hs with hs | hs
    · cases pat with
      | nil => exact absurd rfl hne
      | cons q qs =>
        have hs' := hs
        simp only [startsWithCI, Bool.and_eq_true, beq_iff_eq] at hs'
        have hc : isQCharSpace c = false := hp q (by simp) c hs'.1
        have h1 := startsWithCI_simplifiedLoop (q :: qs) hp (c :: cs) hs
        simp only [simplifiedLoop, hc] at h1
        have h2 : containsCI (c :: simplifiedLoop isQCharSpace false cs) (q :: qs) = true := by
          simp only [containsCI, Bool.or_eq_true]
          exact Or.inl (by simpa using h1)
        cases p with
        | false => simpa [simplifiedLoop, hc] using h2
        | true =>
          simp only [simplifiedLoop, hc]
          exact containsCI_cons _ _ _ (by simpa using h2)
    · unfold simplifiedLoop
      split
      · exact ih hs true
      · split
        · exact containsCI_cons _ _ _ (containsCI_cons _ _ _ (ih hs false))
        · exact containsCI_cons _ _ _ (ih hs false)

theorem containsCI_dropWhile (pat : List Char)
    (hp : ∀ q ∈ pat, ∀ c, foldCase c = foldCase q → isQCharSpace c = false)
    (hne : pat ≠ []) (s : List Char) (hs : containsCI s pat = true) :
    containsCI (s.dropWhile isQCharSpace) pat = true := by
  induction s with
  | nil => simpa using hs
  | cons c cs ih =>
    by_cases hc : isQCharSpace c = true
    · simp only [List.dropWhile, hc]
      apply ih
      simp only [containsCI, Bool.or_eq_true] at hs
      rcases hs with hs | hs
      · cases pat with
        | nil => exact absurd rfl hne
        | cons q qs =>
          simp only [startsWithCI, Bool.and_eq_true, beq_iff_eq] at hs
          have := hp q (by simp) c hs.1
          rw [hc] at this
          exact absurd this (by simp)
      · exact hs
    · have hc' : isQCharSpace c = false := by simpa using hc
      simpa [List.dropWhile, hc'] using hs

theorem containsCI_simplified (pat : List Char)
    (hp : ∀ q ∈ pat, ∀ c, foldCase c = foldCase q → isQCharSpace c = false)
    (hne : pat ≠ []) (s : QString) (hs : containsCI s pat = true) :
    containsCI (QString.simplified s) pat = true :=
  containsCI_simplifiedLoop pat hp hne _ (containsCI_dropWhile pat hp hne s hs) false

theorem isUtf8Line_simplified (s : QString) (hs : isUtf8Line s = true) :
    isUtf8Line (QString.simplified s) = true := by
  unfold isUtf8Line at hs ⊢
  simp only [Bool.or_eq_true] at hs ⊢
  rcases hs with hs | hs
  · exact Or.inl (containsCI_simplified _ matchesNoSpace_upper (by decide) s hs)
  · exact Or.inr (containsCI_simplified _ matchesNoSpace_lower (by decide) s hs)

/-! ### Which source is read -/

theorem candidateLines_supported (h : Host) (p : QString) (ba : QByteArray)
    (he : h.fileExists supportedPath = true) (ho : h.fileOpen supportedPath = some ba) :
    candidateLines h p = supportedLines ba := by
  simp [candidateLines, he, ho]

theorem candidateLines_gen (h : Host) (p : QString)
    (hs : h.fileExists supportedPath = false ∨ h.fileOpen supportedPath = none) :
    candidateLines h p = genLines (genSource h p) := by
  unfold candidateLines
  rcases hs with hs | hs
  · rw [hs]
  · rw [hs]
    cases h.fileExists supportedPath <;> rfl

theorem mem_specLocales (lines : List QString) (e : QString) :
    e ∈ specLocales lines ↔ ∃ l ∈ lines, isUtf8Line l = true ∧ e = unredundant l := by
  unfold specLocales
  simp only [List.mem_map, List.mem_filter]
  constructor
  · rintro ⟨l, ⟨h1, h2⟩, h3⟩
    exact ⟨l, h1, h2, by rw [unredundant_eq, h3]⟩
  · rintro ⟨l, h1, h2, h3⟩
    exact ⟨l, ⟨h1, h2⟩, by rw [h3, unredundant_eq]⟩

/-! ## Lemmas: the operations of `Config` -/

theorem setCurrentLocation_same (h : Host) (w : World) :
    setCurrentLocation h w.config.m_currentLocation w = some w := by
  simp [setCurrentLocation]

/-- Everything a call does that changes the location. -/
theorem setCurrentLocation_change (h : Host) (z : TZZone) (w : World)
    (hne : some z ≠ w.config.m_currentLocation) :
    ∃ w', setCurrentLocation h (some z) w = some w' ∧
      w'.config.m_currentLocation = some z ∧
      w'.config.m_localeGenLines = w.config.m_localeGenLines ∧
      w'.config.m_adjustLiveTimezone = w.config.m_adjustLiveTimezone ∧
      w'.config.m_startingTimezone = w.config.m_startingTimezone ∧
      w'.config.m_selectedLocaleConfiguration.explicit_lang
        = w.config.m_selectedLocaleConfiguration.explicit_lang ∧
      w'.config.m_selectedLocaleConfiguration.explicit_lc
        = w.config.m_selectedLocaleConfiguration.explicit_lc ∧
      (w.config.m_selectedLocaleConfiguration.explicit_lang = true →
        w'.config.m_selectedLocaleConfiguration.m_lang
          = w.config.m_selectedLocaleConfiguration.m_lang ∧
        w'.config.m_selectedLocaleConfiguration.m_languageLocaleBcp47
          = w.config.m_selectedLocaleConfiguration.m_languageLocaleBcp47 ∧
        w'.gs "locale" = w.gs "locale") ∧
      (w.config.m_selectedLocaleConfiguration.explicit_lang = false →
        w'.config.m_selectedLocaleConfiguration.m_lang
          = (w'.config.automaticLocaleConfiguration h).language ∧
        w'.gs "locale" = QVariant.string w'.config.m_selectedLocaleConfiguration.toBcp47) ∧
      (w.config.m_selectedLocaleConfiguration.explicit_lc = true →
        w'.config.m_selectedLocaleConfiguration.lcFields
          = w.config.m_selectedLocaleConfiguration.lcFields) ∧
      (w.config.m_selectedLocaleConfiguration.explicit_lc = false →
        w'.config.m_selectedLocaleConfiguration.lcFields
          = (w'.config.automaticLocaleConfiguration h).lcFields) ∧
      w'.gs "locationRegion" = QVariant.string z.region ∧
      w'.gs "locationZone" = QVariant.string z.zone ∧
      w'.gs "localeConf" = QVariant.map (h.toMap (w'.config.localeConfiguration h)) ∧
      w'.executed =
        (if ((QVariant.string z.region != w.gs "locationRegion")
              || (QVariant.string z.zone != w.gs "locationZone"))
            && w.config.m_adjustLiveTimezone
          then w.executed ++
            [{ program := "timedatectl".toList,
               arguments := ["set-timezone".toList, z.region ++ ['/'] ++ z.zone] }]
          else w.executed) ∧
      (∀ k, k ≠ "locale" → k ≠ "locationRegion" → k ≠ "locationZone" → k ≠ "localeConf" →
        w'.gs k = w.gs k) := by
  simp only [setCurrentLocation, bne_iff_ne, ne_eq, hne, not_false_eq_true, if_true]
  cases hl : w.config.m_selectedLocaleConfiguration.explicit_lang <;>
  cases hc : w.config.m_selectedLocaleConfiguration.explicit_lc <;>
  simp [onCurrentLocationChanged, onCurrentLanguageStatusChanged, Config.currentLocation,
      LocaleConfiguration.setLanguage, hl, hc, GlobalStorage.insert, GlobalStorage.value,
      Config.automaticLocaleConfiguration, Config.localeConfiguration,
      LocaleConfiguration.lcFields, LocaleConfiguration.toBcp47, LocaleConfiguration.language,
      Config.supportedLocales] <;>
  intro k h1 h2 h3 h4 <;> simp [h1, h2, h3, h4]

/-- A call that hands over a zone has a result, in which that zone is the location. -/
theorem setCurrentLocation_some (h : Host) (z : TZZone) (w : World) :
    ∃ w', setCurrentLocation h (some z) w = some w' ∧ w'.config.m_currentLocation = some z := by
  by_cases hne : some z = w.config.m_currentLocation
  · exact ⟨w, by rw [hne]; exact setCurrentLocation_same h w, hne.symm⟩
  · obtain ⟨w', h1, h2, _⟩ := setCurrentLocation_change h z w hne
    exact ⟨w', h1, h2⟩

/-- With America/New_York in the table, two nested calls are enough, and the
call by name is the call by pointer for the zone found, or for New York. -/
theorem setCurrentLocationByName_eq (h : Host) (ny : TZZone)
    (hny : lookupZone h "America".toList "New_York".toList = some ny)
    (regionName zoneName : QString) (w : World) (fuel : Nat) :
    setCurrentLocationByName h (fuel + 2) regionName zoneName w
      = setCurrentLocation h (some ((lookupZone h regionName zoneName).getD ny)) w := by
  cases hz : lookupZone h regionName zoneName with
  | some z =>
    rw [setCurrentLocationByName, hz]
    rfl
  | none =>
    rw [setCurrentLocationByName, hz]
    simp only []
    rw [setCurrentLocationByName, hny]
    rfl

/-- A call by name that has a result is a call by pointer for some zone. -/
theorem setCurrentLocationByName_some (h : Host) (fuel : Nat) (regionName zoneName : QString)
    (w w' : World) (hr : setCurrentLocationByName h fuel regionName zoneName w = some w') :
    ∃ z, setCurrentLocation h (some z) w = some w' := by
  induction fuel generalizing regionName zoneName with
  | zero => simp [setCurrentLocationByName] at hr
  | succ n ih =>
    unfold setCurrentLocationByName at hr
    split at hr
    · exact ⟨_, hr⟩
    · exact ih _ _ hr

theorem setCurrentLocation_null (h : Host) (w w' : World)
    (hr : setCurrentLocation h none w = some w') : w' = w := by
  by_cases hne : none = w.config.m_currentLocation
  · rw [hne, setCurrentLocation_same] at hr
    exact (Option.some.inj hr).symm
  · exfalso
    simp only [setCurrentLocation, bne_iff_ne, ne_eq, hne, not_false_eq_true, if_true] at hr
    revert hr
    cases hl : w.config.m_selectedLocaleConfiguration.explicit_lang <;>
    cases hc : w.config.m_selectedLocaleConfiguration.explicit_lc <;>
    simp [onCurrentLocationChanged, onCurrentLanguageStatusChanged, Config.currentLocation,
      LocaleConfiguration.setLanguage, hl, hc]

/-- What a call of the pointer overload never touches. -/
theorem setCurrentLocation_keeps (h : Host) (location : Option TZZone) (w w' : World)
    (hr : setCurrentLocation h location w = some w') :
    w'.config.m_selectedLocaleConfiguration.explicit_lang
        = w.config.m_selectedLocaleConfiguration.explicit_lang ∧
    w'.config.m_selectedLocaleConfiguration.explicit_lc
        = w.config.m_selectedLocaleConfiguration.explicit_lc ∧
    (w.config.m_selectedLocaleConfiguration.explicit_lang = true →
      w'.config.m_selectedLocaleConfiguration.m_lang
          = w.config.m_selectedLocaleConfiguration.m_lang ∧
      w'.config.m_selectedLocaleConfiguration.m_languageLocaleBcp47
          = w.config.m_selectedLocaleConfiguration.m_languageLocaleBcp47 ∧
      w'.gs "locale" = w.gs "locale") ∧
    (w.config.m_selectedLocaleConfiguration.explicit_lc = true →
      w'.config.m_selectedLocaleConfiguration.lcFields
          = w.config.m_selectedLocaleConfiguration.lcFields) := by
  cases location with
  | none =>
    rw [setCurrentLocation_null h w w' hr]
    simp
  | some z =>
    by_cases hne : some z = w.config.m_currentLocation
    · rw [hne, setCurrentLocation_same] at hr
      rw [← Option.some.inj hr]
      simp
    · obtain ⟨w2, h1, _, _, _, _, h6, h7, h8, _, h10, _⟩ := setCurrentLocation_change h z w hne
      rw [h1] at hr
      rw [← Option.some.inj hr]
      exact ⟨h6, h7, h8, h10⟩

/-- What one call leaves alone: a flag that is set stays set, an explicit
language survives every call but `setLanguageExplicitly`, explicit `LC_`
fields survive every call but `setLCLocaleExplicitly`. -/
theorem step_keeps (h : Host) (fuel : Nat) (op : Op) (w w' : World)
    (hr : step h fuel op w = some w') :
    (w.config.m_selectedLocaleConfiguration.explicit_lang = true →
      w'.config.m_selectedLocaleConfiguration.explicit_lang = true) ∧
    (w.config.m_selectedLocaleConfiguration.explicit_lc = true →
      w'.config.m_selectedLocaleConfiguration.explicit_lc = true) ∧
    (op.isSetLanguage = false → w.config.m_selectedLocaleConfiguration.explicit_lang = true →
      w'.config.m_selectedLocaleConfiguration.m_lang
        = w.config.m_selectedLocaleConfiguration.m_lang) ∧
    (op.isSetLCLocale = false → w.config.m_selectedLocaleConfiguration.explicit_lc = true →
      w'.config.m_selectedLocaleConfiguration.lcFields
        = w.config.m_selectedLocaleConfiguration.lcFields) := by
  have viaPointer : ∀ location, setCurrentLocation h location w = some w' →
      (w.config.m_selectedLocaleConfiguration.explicit_lang = true →
        w'.config.m_selectedLocaleConfiguration.explicit_lang = true) ∧
      (w.config.m_selectedLocaleConfiguration.explicit_lc = true →
        w'.config.m_selectedLocaleConfiguration.explicit_lc = true) ∧
      (w.config.m_selectedLocaleConfiguration.explicit_lang = true →
        w'.config.m_selectedLocaleConfiguration.m_lang
          = w.config.m_selectedLocaleConfiguration.m_lang) ∧
      (w.config.m_selectedLocaleConfiguration.explicit_lc = true →
        w'.config.m_selectedLocaleConfiguration.lcFields
          = w.config.m_selectedLocaleConfiguration.lcFields) := by
    intro location hl
    obtain ⟨h1, h2, h3, h4⟩ := setCurrentLocation_keeps h location w w' hl
    exact ⟨fun hh => h1.trans hh, fun hh => h2.trans hh, fun hh => (h3 hh).1, h4⟩
  cases op with
  | setCurrentLocationByName r z =>
    obtain ⟨zn, hz⟩ := setCurrentLocationByName_some h fuel r z w w' hr
    obtain ⟨h1, h2, h3, h4⟩ := viaPointer _ hz
    exact ⟨h1, h2, fun _ => h3, fun _ => h4⟩
  | setCurrentLocation location =>
    obtain ⟨h1, h2, h3, h4⟩ := viaPointer _ hr
    exact ⟨h1, h2, fun _ => h3, fun _ => h4⟩
  | setLanguageExplicitly language =>
    simp only [step, Option.some.injEq] at hr
    subst hr
    simp [setLanguageExplicitly, onCurrentLanguageStatusChanged, LocaleConfiguration.setLanguage,
      Op.isSetLanguage, LocaleConfiguration.lcFields]
  | setLCLocaleExplicitly locale =>
    simp only [step, Option.some.injEq] at hr
    subst hr
    simp [setLCLocaleExplicitly, Op.isSetLCLocale]
  | setConfigurationMap m =>
    simp only [step, Option.some.injEq] at hr
    subst hr
    simp [setConfigurationMap]
  | createJobs =>
    simp only [step, Option.some.injEq] at hr
    subst hr
    simp [createJobs]

/-- A property that every permitted call preserves holds after a sequence of
permitted calls. -/
theorem run_preserves (h : Host) (fuel : Nat) (ok : Op → Bool) (P : World → Prop)
    (hstep : ∀ op w w', ok op = true → P w → step h fuel op w = some w' → P w')
    (ops : List Op) (hops : ∀ op ∈ ops, ok op = true) (w w' : World) (hw : P w)
    (hr : run h fuel ops w = some w') : P w' := by
  induction ops generalizing w with
  | nil =>
    simp only [run, Option.some.injEq] at hr
    subst hr; exact hw
  | cons op ops ih =>
    unfold run at hr
    split at hr
    · rename_i w1 h1
      exact ih (fun o ho => hops o (List.mem_cons_of_mem _ ho)) w1
        (hstep op w w1 (hops op (by simp)) hw h1) hr
    · exact absurd hr (by simp)

/-- With America/New_York in the table, a call that hands over no null
pointer has a result. -/
theorem step_total (h : Host) (ny : TZZone)
    (hny : lookupZone h "America".toList "New_York".toList = some ny)
    (fuel : Nat) (op : Op) (hop : op.hasZone = true) (w : World) :
    ∃ w', step h (fuel + 2) op w = some w' := by
  cases op with
  | setCurrentLocationByName r z =>
    obtain ⟨w', hw, _⟩ := setCurrentLocation_some h ((lookupZone h r z).getD ny) w
    exact ⟨w', by simp only [step]; rw [setCurrentLocationByName_eq h ny hny]; exact hw⟩
  | setCurrentLocation location =>
    cases location with
    | none => simp [Op.hasZone] at hop
    | some z =>
      obtain ⟨w', hw, _⟩ := setCurrentLocation_some h z w
      exact ⟨w', hw⟩
  | setLanguageExplicitly language => exact ⟨_, rfl⟩
  | setLCLocaleExplicitly locale => exact ⟨_, rfl⟩
  | setConfigurationMap m => exact ⟨_, rfl⟩
  | createJobs => exact ⟨_, rfl⟩

theorem run_total (h : Host) (ny : TZZone)
    (hny : lookupZone h "America".toList "New_York".toList = some ny)
    (fuel : Nat) (ops : List Op) (hops : ∀ op ∈ ops, op.hasZone = true) (w : World) :
    ∃ w', run h (fuel + 2) ops w = some w' := by
  induction ops generalizing w with
  | nil => exact ⟨w, rfl⟩
  | cons op ops ih =>
    obtain ⟨w1, h1⟩ := step_total h ny hny fuel op (hops op (by simp)) w
    obtain ⟨w2, h2⟩ := ih (fun o ho => hops o (List.mem_cons_of_mem _ ho)) w1
    exact ⟨w2, by simp only [run, h1]; exact h2⟩

theorem find?_key_spec {α : Type} (key : α → QString) (l : List α) (k : QString) (a : α)
    (hf : l.find? (fun x => key x == k) = some a) : a ∈ l ∧ key a = k := by
  refine ⟨List.mem_of_find?_eq_some hf, ?_⟩
  have := List.find?_some hf
  simpa using this

/-- What the lookup of lines 211-212 finds is a zone of that name in a region of that name. -/
theorem lookupZone_some (h : Host) (regionName zoneName : QString) (z : TZZone)
    (hz : lookupZone h regionName zoneName = some z) :
    z.zone = zoneName ∧ ∃ region ∈ h.timezoneData, region.key = regionName ∧ z ∈ region.zones := by
  unfold lookupZone at hz
  split at hz
  · rename_i region hr
    obtain ⟨h1, h2⟩ := find?_key_spec TZRegion.key _ _ _ hr
    obtain ⟨h3, h4⟩ := find?_key_spec TZZone.zone _ _ _ hz
    exact ⟨h4, region, h1, h2, h3⟩
  · exact absurd hz (by simp)

/-- When the lookup finds nothing, the table has no region of that name, or
the first such region has no zone of that name. -/
theorem lookupZone_none (h : Host) (regionName zoneName : QString)
    (hz : lookupZone h regionName zoneName = none) :
    (∀ region ∈ h.timezoneData, region.key ≠ regionName) ∨
      ∃ region, findRegion h.timezoneData regionName = some region ∧
        ∀ z ∈ region.zones, z.zone ≠ zoneName := by
  unfold lookupZone at hz
  split at hz
  · rename_i region hr
    right
    refine ⟨region, hr, ?_⟩
    intro z hzm
    have := List.find?_eq_none.mp hz z hzm
    simpa using this
  · rename_i hr
    left
    intro region hrm
    have := List.find?_eq_none.mp hr region hrm
    simpa using this

/-! ### The text primitives in the words of the specification -/

/-- Claim C2 fails as stated: from the line `aa_ER UTF-8` the function returns
`aa_ER`, which contains neither `UTF-8` nor `utf8`. -/
theorem loadLocales_entry_without_marker :
    loadLocales (sampleHost none (some "aa_ER UTF-8\n".toList) []) "/etc/locale.gen".toList
        = ["aa_ER".toList] ∧
      ¬ (∀ e ∈ loadLocales (sampleHost none (some "aa_ER UTF-8\n".toList) [])
            "/etc/locale.gen".toList,
          containsCI e "UTF-8".toList = true ∨ containsCI e "utf8".toList = true) := by
  decide

/-- Claim C2, amended. Every entry of the list returned by `loadLocales` comes
from a candidate line that contains `UTF-8` or `utf8` without regard to
case, by removing one trailing ` UTF-8` and simplifying; the entry itself
contains `UTF-8` or `utf8` whenever the line still does once that trailing
` UTF-8` is removed. -/
theorem loadLocales_entries_from_utf8_lines (h : Host) (localeGenPath : QString)
    (e : QString) (he : e ∈ loadLocales h localeGenPath) :
    ∃ l ∈ candidateLines h localeGenPath,
      (containsCI l "UTF-8".toList = true ∨ containsCI l "utf8".toList = true) ∧
      e = unredundant l ∧
      ((containsCI (withoutTrailingUtf8 l) "UTF-8".toList = true
          ∨ containsCI (withoutTrailingUtf8 l) "utf8".toList = true) →
        (containsCI e "UTF-8".toList = true ∨ containsCI e "utf8".toList = true)) := by
  rw [loadLocales_eq_specLocales, mem_specLocales] at he
  obtain ⟨l, hl, hu, hel⟩ := he
  refine ⟨l, hl, ?_, hel, ?_⟩
  · simpa [isUtf8Line] using hu
  · intro hw
    have h1 : isUtf8Line (withoutTrailingUtf8 l) = true := by simpa [isUtf8Line] using hw
    have h2 := isUtf8Line_simplified _ h1
    rw [← unredundant_eq, ← hel] at h2
    simpa [isUtf8Line] using h2

theorem loadLocales_entries_from_utf8_lines_witness :
    "en_US.UTF-8".toList
        ∈ loadLocales (sampleHost none (some "de_DE ISO-8859-1\nen_US.UTF-8 UTF-8\n".toList) [])
            "/etc/locale.gen".toList ∧
    ∃ l ∈ candidateLines (sampleHost none (some "de_DE ISO-8859-1\nen_US.UTF-8 UTF-8\n".toList) [])
        "/etc/locale.gen".toList,
      (containsCI l "UTF-8".toList = true ∨ containsCI l "utf8".toList = true) ∧
      "en_US.UTF-8".toList = unredundant l ∧
      ((containsCI (withoutTrailingUtf8 l) "UTF-8".toList = true
          ∨ containsCI (withoutTrailingUtf8 l) "utf8".toList = true) →
        (containsCI "en_US.UTF-8".toList "UTF-8".toList = true
          ∨ containsCI "en_US.UTF-8".toList "utf8".toList = true)) :=
  ⟨by decide,
   loadLocales_entries_from_utf8_lines
    (sampleHost none (some "de_DE ISO-8859-1\nen_US.UTF-8 UTF-8\n".toList) [])
    "/etc/locale.gen".toList "en_US.UTF-8".toList (by decide)⟩

/-- Claim C3 fails as stated: the branch that reads the SUPPORTED file handles
no comments, so a line `#en_US.UTF-8 UTF-8` of that file is returned as
`#en_US.UTF-8`. -/
theorem loadLocales_supported_keeps_hash :
    loadLocales (sampleHost (some "#en_US.UTF-8 UTF-8\n".toList) none []) "/etc/locale.gen".toList
        = ["#en_US.UTF-8".toList] ∧
      ¬ (∀ e ∈ loadLocales (sampleHost (some "#en_US.UTF-8 UTF-8\n".toList) none [])
            "/etc/locale.gen".toList,
          startsWith e "#".toList = false) := by
  decide

/-- Claim C3, amended. When the SUPPORTED file is not used, so that the lines
come from the file at `localeGenPath` or from `locale -a`, and these bytes
contain neither 0x85 nor 0xA0, no entry of the list returned by
`loadLocales` begins with `#`. -/
theorem loadLocales_strips_comments (h : Host) (localeGenPath : QString)
    (hs : h.fileExists supportedPath = false ∨ h.fileOpen supportedPath = none)
    (hb : ∀ c ∈ genSource h localeGenPath, plainByte c = true) :
    ∀ e ∈ loadLocales h localeGenPath, startsWith e "#".toList = false := by
  intro e he
  rw [loadLocales_eq_specLocales, mem_specLocales, candidateLines_gen h localeGenPath hs] at he
  obtain ⟨l, hl, _, hel⟩ := he
  unfold genLines at hl
  rw [List.mem_filterMap] at hl
  obtain ⟨line, hline, hgen⟩ := hl
  have hbytes : ∀ c ∈ line, plainByte c = true :=
    fun c hc => hb c (mem_splitBytes _ _ line hline c hc)
  obtain ⟨c, t, hct, hc, hq⟩ := localeGenLine_head line l hbytes hgen
  rw [hel, hct]
  exact unredundant_no_hash c t hc hq

theorem loadLocales_strips_comments_witness :
    loadLocales
        (sampleHost none (some "# comment\n#en_US.UTF-8 UTF-8\n #de_DE.UTF-8 UTF-8\n".toList) [])
        "/etc/locale.gen".toList = ["en_US.UTF-8".toList, "de_DE.UTF-8".toList] ∧
      startsWith "de_DE.UTF-8".toList "#".toList = false :=
  ⟨by decide,
   loadLocales_strips_comments
    (sampleHost none (some "# comment\n#en_US.UTF-8 UTF-8\n #de_DE.UTF-8 UTF-8\n".toList) [])
    "/etc/locale.gen".toList (by decide) (by decide) "de_DE.UTF-8".toList (by decide)⟩

/-- The condition on the bytes cannot be dropped: `QByteArray::simplified`
keeps a leading byte 0xA0, so the test for `#` of line 99 fails, and
`QString::simplified` then strips that byte as whitespace. -/
theorem loadLocales_hash_behind_nbsp :
    loadLocales (sampleHost none (some (Char.ofNat 0xA0 :: "#x.utf8\n".toList)) [])
        "/etc/locale.gen".toList = ["#x.utf8".toList] := by
  decide

/-- Claim C4. `loadLocales` consults its sources in a fixed order: the result
is computed from the SUPPORTED file alone when that file exists and opens,
otherwise from the file at `localeGenPath` alone when it opens, otherwise
from the output of `locale -a`; and when none of the three yields a line with
`UTF-8` or `utf8` the result is the empty list. -/
theorem loadLocales_fallback_order (h : Host) (localeGenPath : QString) :
    (∀ ba, h.fileExists supportedPath = true → h.fileOpen supportedPath = some ba →
      loadLocales h localeGenPath = specLocales (supportedLines ba)) ∧
    (∀ ba, (h.fileExists supportedPath = false ∨ h.fileOpen supportedPath = none) →
      h.fileOpen localeGenPath = some ba →
      loadLocales h localeGenPath = specLocales (genLines ba)) ∧
    ((h.fileExists supportedPath = false ∨ h.fileOpen supportedPath = none) →
      h.fileOpen localeGenPath = none →
      loadLocales h localeGenPath = specLocales (genLines h.localeA)) ∧
    ((∀ ba, h.fileOpen supportedPath = some ba → ∀ l ∈ supportedLines ba, isUtf8Line l = false) →
      (∀ ba, h.fileOpen localeGenPath = some ba →
        ∀ l ∈ genLines ba, isUtf8Line l = false) →
      (∀ l ∈ genLines h.localeA, isUtf8Line l = false) →
      loadLocales h localeGenPath = []) := by
  refine ⟨?_, ?_, ?_, ?_⟩
  · intro ba he ho
    rw [loadLocales_eq_specLocales, candidateLines_supported h _ ba he ho]
  · intro ba hs ho
    rw [loadLocales_eq_specLocales, candidateLines_gen h _ hs]
    simp [genSource, ho]
  · intro hs ho
    rw [loadLocales_eq_specLocales, candidateLines_gen h _ hs]
    simp [genSource, ho]
  · intro h1 h2 h3
    rw [loadLocales_eq_specLocales]
    have hall : ∀ l ∈ candidateLines h localeGenPath, isUtf8Line l = false := by
      unfold candidateLines
      split
      · rename_i ba _ ho
        exact h1 ba ho
      · unfold genSource
        split
        · rename_i ba ho
          exact h2 ba ho
        · exact h3
    unfold specLocales
    rw [List.filter_eq_nil_iff.mpr (fun l hl => by simp [hall l hl])]
    rfl

theorem loadLocales_fallback_order_witness :
    loadLocales (sampleHost (some "fr_FR.UTF-8 UTF-8\n".toList) (some "de_DE.UTF-8 UTF-8\n".toList)
        "C.utf8\n".toList) "/etc/locale.gen".toList = ["fr_FR.UTF-8".toList] ∧
    loadLocales (sampleHost none (some "de_DE.UTF-8 UTF-8\n".toList) "C.utf8\n".toList)
        "/etc/locale.gen".toList = ["de_DE.UTF-8".toList] ∧
    loadLocales (sampleHost none none "C.utf8\n".toList) "/etc/locale.gen".toList
        = ["C.utf8".toList] ∧
    loadLocales (sampleHost none none "C\nPOSIX\n".toList) "/etc/locale.gen".toList = [] :=
  ⟨((loadLocales_fallback_order _ _).1 "fr_FR.UTF-8 UTF-8\n".toList
      (by decide) (by decide)).trans (by decide),
   ((loadLocales_fallback_order _ _).2.1 "de_DE.UTF-8 UTF-8\n".toList
      (Or.inl (by decide)) (by decide)).trans (by decide),
   ((loadLocales_fallback_order _ _).2.2.1 (Or.inl (by decide)) (by decide)).trans (by decide),
   (loadLocales_fallback_order _ _).2.2.2 (by decide) (by decide) (by decide)⟩

/-! ## The claims about the `Config` object -/

/-- Claim C5. Provided the zone table contains America/New_York, the call
`setCurrentLocation( regionName, zoneName )` completes within two nested
calls, that is after at most one fallback step, and leaves the current
location equal to the zone of that name in the region of that name when the
lookup finds one, and equal to America/New_York otherwise. In a table whose
region keys are distinct the lookup finds nothing only if no region of that
name has a zone of that name. -/
theorem setCurrentLocationByName_resolves (h : Host) (ny : TZZone)
    (hny : lookupZone h "America".toList "New_York".toList = some ny)
    (regionName zoneName : QString) (w : World) (fuel : Nat) :
    ∃ w', setCurrentLocationByName h (fuel + 2) regionName zoneName w = some w' ∧
      (∀ z, lookupZone h regionName zoneName = some z →
        w'.config.m_currentLocation = some z ∧ z.zone = zoneName ∧
          ∃ region ∈ h.timezoneData, region.key = regionName ∧ z ∈ region.zones) ∧
      (lookupZone h regionName zoneName = none →
        w'.config.m_currentLocation = some ny ∧
          ((∀ region ∈ h.timezoneData, region.key ≠ regionName) ∨
            ∃ region, findRegion h.timezoneData regionName = some region ∧
              ∀ z ∈ region.zones, z.zone ≠ zoneName)) ∧
      ((h.timezoneData.map TZRegion.key).Nodup →
        lookupZone h regionName zoneName = none →
        ∀ region ∈ h.timezoneData, region.key = regionName →
          ∀ z ∈ region.zones, z.zone ≠ zoneName) := by
  obtain ⟨w', hw, hloc⟩ :=
    setCurrentLocation_some h ((lookupZone h regionName zoneName).getD ny) w
  refine ⟨w', ?_, ?_, ?_, ?_⟩
  · rw [setCurrentLocationByName_eq h ny hny]; exact hw
  · intro z hz
    rw [hz] at hloc
    exact ⟨hloc, lookupZone_some h _ _ z hz⟩
  · intro hz
    rw [hz] at hloc
    exact ⟨hloc, lookupZone_none h _ _ hz⟩
  · intro hnodup hz region hr hkey
    rcases lookupZone_none h _ _ hz with hno | ⟨region0, hfind, hzones⟩
    · exact absurd hkey (hno region hr)
    · obtain ⟨hmem0, hkey0⟩ := find?_key_spec TZRegion.key _ _ _ hfind
      have : region = region0 :=
        List.inj_on_of_nodup_map hnodup hr hmem0 (hkey.trans hkey0.symm)
      rw [this]
      exact hzones

theorem setCurrentLocationByName_resolves_witness :
    lookupZone sampleConfigHost "Atlantis".toList "Nowhere".toList = none ∧
    ∃ w', setCurrentLocationByName sampleConfigHost 2 "Atlantis".toList "Nowhere".toList
        sampleWorld = some w' ∧
      w'.config.m_currentLocation = some sampleNewYork ∧
      ∀ region ∈ sampleConfigHost.timezoneData, region.key = "Atlantis".toList →
        ∀ z ∈ region.zones, z.zone ≠ "Nowhere".toList := by
  obtain ⟨w', h1, _, h3, h4⟩ :=
    setCurrentLocationByName_resolves sampleConfigHost sampleNewYork (by decide)
      "Atlantis".toList "Nowhere".toList sampleWorld 0
  exact ⟨by decide, w', h1, (h3 (by decide)).1, h4 (by decide) (by decide)⟩

/-- Claim C6. After `setLanguageExplicitly( L )` every later sequence of
calls other than `setLanguageExplicitly`, in particular every change of
location through either overload of `setCurrentLocation`, leaves the selected
language equal to `L`; and while the `LC_` locale has not been set
explicitly, a change of location to a zone overwrites the nine `LC_` fields
with those of the automatic configuration computed for the new location. -/
theorem explicit_language_survives_location_changes (h : Host) (ny : TZZone)
    (hny : lookupZone h "America".toList "New_York".toList = some ny) (fuel : Nat) :
    (∀ (language : QString) (w : World) (ops : List Op),
      (∀ op ∈ ops, op.isSetLanguage = false ∧ op.hasZone = true) →
      ∃ w', run h (fuel + 2) ops (setLanguageExplicitly h language w) = some w' ∧
        w'.config.m_selectedLocaleConfiguration.language = language ∧
        w'.config.m_selectedLocaleConfiguration.explicit_lang = true) ∧
    (∀ (w : World) (z : TZZone),
      w.config.m_selectedLocaleConfiguration.explicit_lang = true →
      w.config.m_selectedLocaleConfiguration.explicit_lc = false →
      some z ≠ w.config.m_currentLocation →
      ∃ w', setCurrentLocation h (some z) w = some w' ∧
        w'.config.m_currentLocation = some z ∧
        w'.config.m_selectedLocaleConfiguration.language
          = w.config.m_selectedLocaleConfiguration.language ∧
        w'.config.m_selectedLocaleConfiguration.lcFields
          = (h.fromLanguageAndLocation h.systemLocaleName w.config.m_localeGenLines
              z.country).lcFields) ∧
    (∀ (w : World) (regionName zoneName : QString),
      w.config.m_selectedLocaleConfiguration.explicit_lang = true →
      w.config.m_selectedLocaleConfiguration.explicit_lc = false →
      some ((lookupZone h regionName zoneName).getD ny) ≠ w.config.m_currentLocation →
      ∃ w', setCurrentLocationByName h (fuel + 2) regionName zoneName w = some w' ∧
        w'.config.m_currentLocation = some ((lookupZone h regionName zoneName).getD ny) ∧
        w'.config.m_selectedLocaleConfiguration.language
          = w.config.m_selectedLocaleConfiguration.language ∧
        w'.config.m_selectedLocaleConfiguration.lcFields
          = (h.fromLanguageAndLocation h.systemLocaleName w.config.m_localeGenLines
              ((lookupZone h regionName zoneName).getD ny).country).lcFields) := by
  have change : ∀ (w : World) (z : TZZone),
      w.config.m_selectedLocaleConfiguration.explicit_lang = true →
      w.config.m_selectedLocaleConfiguration.explicit_lc = false →
      some z ≠ w.config.m_currentLocation →
      ∃ w', setCurrentLocation h (some z) w = some w' ∧
        w'.config.m_currentLocation = some z ∧
        w'.config.m_selectedLocaleConfiguration.language
          = w.config.m_selectedLocaleConfiguration.language ∧
        w'.config.m_selectedLocaleConfiguration.lcFields
          = (h.fromLanguageAndLocation h.systemLocaleName w.config.m_localeGenLines
              z.country).lcFields := by
    intro w z hl hc hne
    obtain ⟨w', h1, h2, h3, _, _, _, _, h8, _, _, h11, _⟩ := setCurrentLocation_change h z w hne
    refine ⟨w', h1, h2, (h8 hl).1, ?_⟩
    rw [h11 hc]
    simp [Config.automaticLocaleConfiguration, Config.currentLocation, Config.supportedLocales,
      h2, h3]
  refine ⟨?_, change, ?_⟩
  · intro language w ops hops
    obtain ⟨w', hw⟩ := run_total h ny hny fuel ops (fun op ho => (hops op ho).2)
      (setLanguageExplicitly h language w)
    refine ⟨w', hw, ?_⟩
    exact run_preserves h (fuel + 2) (fun op => !op.isSetLanguage)
      (fun v => v.config.m_selectedLocaleConfiguration.language = language ∧
        v.config.m_selectedLocaleConfiguration.explicit_lang = true)
      (fun op v v' hok hv hstep => by
        obtain ⟨k1, _, k3, _⟩ := step_keeps h (fuel + 2) op v v' hstep
        exact ⟨(k3 (by simpa using hok) hv.2).trans hv.1, k1 hv.2⟩)
      ops (fun op ho => by simp [(hops op ho).1]) _ w'
      (by simp [setLanguageExplicitly, onCurrentLanguageStatusChanged,
            LocaleConfiguration.setLanguage, LocaleConfiguration.language])
      hw
  · intro w regionName zoneName hl hc hne
    rw [setCurrentLocationByName_eq h ny hny]
    exact change w _ hl hc hne

theorem explicit_language_survives_location_changes_witness :
    (∃ w', run sampleConfigHost 2
        [Op.setCurrentLocation (some sampleBerlin),
         Op.setCurrentLocationByName "Atlantis".toList "Nowhere".toList]
        (setLanguageExplicitly sampleConfigHost "fr_FR.UTF-8".toList sampleWorld) = some w' ∧
      w'.config.m_selectedLocaleConfiguration.language = "fr_FR.UTF-8".toList ∧
      w'.config.m_selectedLocaleConfiguration.explicit_lang = true) ∧
    (∃ w', setCurrentLocation sampleConfigHost (some sampleBerlin)
        (setLanguageExplicitly sampleConfigHost "fr_FR.UTF-8".toList sampleWorld) = some w' ∧
      w'.config.m_currentLocation = some sampleBerlin ∧
      w'.config.m_selectedLocaleConfiguration.language
        = (setLanguageExplicitly sampleConfigHost "fr_FR.UTF-8".toList
            sampleWorld).config.m_selectedLocaleConfiguration.language ∧
      w'.config.m_selectedLocaleConfiguration.lcFields
        = (sampleConfigHost.fromLanguageAndLocation sampleConfigHost.systemLocaleName
            (setLanguageExplicitly sampleConfigHost "fr_FR.UTF-8".toList
              sampleWorld).config.m_localeGenLines sampleBerlin.country).lcFields) ∧
    (∃ w', setCurrentLocationByName sampleConfigHost 2 "Europe".toList "Berlin".toList
        (setLanguageExplicitly sampleConfigHost "fr_FR.UTF-8".toList sampleWorld) = some w' ∧
      w'.config.m_currentLocation
        = some ((lookupZone sampleConfigHost "Europe".toList "Berlin".toList).getD
            sampleNewYork) ∧
      w'.config.m_selectedLocaleConfiguration.language
        = (setLanguageExplicitly sampleConfigHost "fr_FR.UTF-8".toList
            sampleWorld).config.m_selectedLocaleConfiguration.language ∧
      w'.config.m_selectedLocaleConfiguration.lcFields
        = (sampleConfigHost.fromLanguageAndLocation sampleConfigHost.systemLocaleName
            (setLanguageExplicitly sampleConfigHost "fr_FR.UTF-8".toList
              sampleWorld).config.m_localeGenLines
            ((lookupZone sampleConfigHost "Europe".toList "Berlin".toList).getD
              sampleNewYork).country).lcFields) :=
  ⟨(explicit_language_survives_location_changes sampleConfigHost sampleNewYork (by decide) 0).1
      "fr_FR.UTF-8".toList sampleWorld _ (by decide),
   (explicit_language_survives_location_changes sampleConfigHost sampleNewYork (by decide)
      0).2.1 _ sampleBerlin (by decide) (by decide) (by decide),
   (explicit_language_survives_location_changes sampleConfigHost sampleNewYork (by decide)
      0).2.2 _ "Europe".toList "Berlin".toList (by decide) (by decide) (by decide)⟩

/-- Claim C7. Explicit overrides are permanent: `setLanguageExplicitly` and
`setLCLocaleExplicitly` set their flag, no sequence of operations of `Config`
sets a flag back to false, and after `setLCLocaleExplicitly( X )` all nine
`LC_` fields equal `X` and still equal `X` after any sequence of calls other
than `setLCLocaleExplicitly`, in particular after any location changes. -/
theorem explicit_overrides_permanent (h : Host) :
    (∀ (language : QString) (w : World),
      (setLanguageExplicitly h language w).config.m_selectedLocaleConfiguration.explicit_lang
        = true) ∧
    (∀ (locale : QString) (w : World),
      (setLCLocaleExplicitly locale w).config.m_selectedLocaleConfiguration.explicit_lc = true ∧
      (setLCLocaleExplicitly locale w).config.m_selectedLocaleConfiguration.lcFields
        = List.replicate 9 locale) ∧
    (∀ (fuel : Nat) (ops : List Op) (w w' : World), run h fuel ops w = some w' →
      (w.config.m_selectedLocaleConfiguration.explicit_lang = true →
        w'.config.m_selectedLocaleConfiguration.explicit_lang = true) ∧
      (w.config.m_selectedLocaleConfiguration.explicit_lc = true →
        w'.config.m_selectedLocaleConfiguration.explicit_lc = true)) ∧
    (∀ (ny : TZZone), lookupZone h "America".toList "New_York".toList = some ny →
      ∀ (fuel : Nat) (locale : QString) (w : World) (ops : List Op),
      (∀ op ∈ ops, op.isSetLCLocale = false ∧ op.hasZone = true) →
      ∃ w', run h (fuel + 2) ops (setLCLocaleExplicitly locale w) = some w' ∧
        w'.config.m_selectedLocaleConfiguration.lcFields = List.replicate 9 locale ∧
        w'.config.m_selectedLocaleConfiguration.explicit_lc = true) := by
  refine ⟨?_, ?_, ?_, ?_⟩
  · intro language w
    simp [setLanguageExplicitly, onCurrentLanguageStatusChanged]
  · intro locale w
    simp [setLCLocaleExplicitly, LocaleConfiguration.lcFields, List.replicate]
  · intro fuel ops w w' hr
    constructor
    · intro hl
      exact run_preserves h fuel (fun _ => true)
        (fun v => v.config.m_selectedLocaleConfiguration.explicit_lang = true)
        (fun op v v' _ hv hstep => (step_keeps h fuel op v v' hstep).1 hv)
        ops (fun _ _ => rfl) w w' hl hr
    · intro hc
      exact run_preserves h fuel (fun _ => true)
        (fun v => v.config.m_selectedLocaleConfiguration.explicit_lc = true)
        (fun op v v' _ hv hstep => (step_keeps h fuel op v v' hstep).2.1 hv)
        ops (fun _ _ => rfl) w w' hc hr
  · intro ny hny fuel locale w ops hops
    obtain ⟨w', hw⟩ := run_total h ny hny fuel ops (fun op ho => (hops op ho).2)
      (setLCLocaleExplicitly locale w)
    refine ⟨w', hw, ?_⟩
    exact run_preserves h (fuel + 2) (fun op => !op.isSetLCLocale)
      (fun v => v.config.m_selectedLocaleConfiguration.lcFields = List.replicate 9 locale ∧
        v.config.m_selectedLocaleConfiguration.explicit_lc = true)
      (fun op v v' hok hv hstep => by
        obtain ⟨_, k2, _, k4⟩ := step_keeps h (fuel + 2) op v v' hstep
        exact ⟨(k4 (by simpa using hok) hv.2).trans hv.1, k2 hv.2⟩)
      ops (fun op ho => by simp [(hops op ho).1]) _ w'
      (by simp [setLCLocaleExplicitly, LocaleConfiguration.lcFields, List.replicate])
      hw

theorem explicit_overrides_permanent_witness :
    ((sampleWorld.config.m_selectedLocaleConfiguration.explicit_lang = true →
        (setLCLocaleExplicitly "nl_NL.UTF-8".toList
          sampleWorld).config.m_selectedLocaleConfiguration.explicit_lang = true) ∧
      (sampleWorld.config.m_selectedLocaleConfiguration.explicit_lc = true →
        (setLCLocaleExplicitly "nl_NL.UTF-8".toList
          sampleWorld).config.m_selectedLocaleConfiguration.explicit_lc = true)) ∧
    ∃ w', run sampleConfigHost 2
        [Op.setCurrentLocation (some sampleBerlin),
         Op.setConfigurationMap (fun _ => none),
         Op.setCurrentLocationByName "America".toList "New_York".toList,
         Op.createJobs]
        (setLCLocaleExplicitly "nl_NL.UTF-8".toList sampleWorld) = some w' ∧
      w'.config.m_selectedLocaleConfiguration.lcFields
        = List.replicate 9 "nl_NL.UTF-8".toList ∧
      w'.config.m_selectedLocaleConfiguration.explicit_lc = true :=
  ⟨(explicit_overrides_permanent sampleConfigHost).2.2.1 2
      [Op.setLCLocaleExplicitly "nl_NL.UTF-8".toList] sampleWorld _ rfl,
   (explicit_overrides_permanent sampleConfigHost).2.2.2 sampleNewYork (by decide) 0
      "nl_NL.UTF-8".toList sampleWorld _ (by decide)⟩

/-- Claim C8. `createJobs` returns a list of length zero or one: it is empty
exactly when no current location is set, and otherwise holds exactly one
set-timezone job carrying the region and zone of the current location;
`createJobs` leaves the configuration state unchanged. -/
theorem createJobs_zero_or_one (w : World) :
    (createJobs w).2 = w ∧
    (createJobs w).1.length ≤ 1 ∧
    ((createJobs w).1 = [] ↔ w.config.m_currentLocation = none) ∧
    (∀ z, w.config.m_currentLocation = some z →
      (createJobs w).1 = [Job.setTimezone z.region z.zone]) := by
  unfold createJobs
  cases hc : w.config.m_currentLocation <;> simp [Config.currentLocation, hc]

theorem createJobs_zero_or_one_witness :
    (createJobs { sampleWorld with config :=
        { sampleWorld.config with m_currentLocation := some sampleBerlin } }).1
      = [Job.setTimezone "Europe".toList "Berlin".toList] :=
  (createJobs_zero_or_one _).2.2.2 sampleBerlin rfl

/-- Claim C9. When `setCurrentLocation` changes the current location to a
zone Z, the global storage afterwards holds Z's region under `locationRegion`
and Z's zone under `locationZone`, and `timedatectl set-timezone region/zone`
is run exactly when live adjustment is enabled and the previous
`locationRegion` or `locationZone` of the storage differed from Z's; when the
requested location equals the current one, nothing changes and nothing is
run. The overload that takes names is the same call for the zone it resolves
to. -/
theorem setCurrentLocation_updates_store (h : Host) (w : World) :
    (∀ z : TZZone, some z ≠ w.config.m_currentLocation →
      ∃ w', setCurrentLocation h (some z) w = some w' ∧
        w'.config.m_currentLocation = some z ∧
        w'.gs "locationRegion" = QVariant.string z.region ∧
        w'.gs "locationZone" = QVariant.string z.zone ∧
        ((w.config.m_adjustLiveTimezone = true ∧
            (w.gs "locationRegion" ≠ QVariant.string z.region ∨
              w.gs "locationZone" ≠ QVariant.string z.zone)) →
          w'.executed = w.executed ++
            [{ program := "timedatectl".toList,
               arguments := ["set-timezone".toList, z.region ++ ['/'] ++ z.zone] }]) ∧
        (¬ (w.config.m_adjustLiveTimezone = true ∧
            (w.gs "locationRegion" ≠ QVariant.string z.region ∨
              w.gs "locationZone" ≠ QVariant.string z.zone)) →
          w'.executed = w.executed)) ∧
    (∀ location : Option TZZone, location = w.config.m_currentLocation →
      setCurrentLocation h location w = some w) ∧
    (∀ ny : TZZone, lookupZone h "America".toList "New_York".toList = some ny →
      ∀ (fuel : Nat) (regionName zoneName : QString),
        setCurrentLocationByName h (fuel + 2) regionName zoneName w
          = setCurrentLocation h (some ((lookupZone h regionName zoneName).getD ny)) w) := by
  refine ⟨?_, ?_, ?_⟩
  · intro z hne
    obtain ⟨w', h1, h2, _, _, _, _, _, _, _, _, _, h12, h13, _, h15, _⟩ :=
      setCurrentLocation_change h z w hne
    refine ⟨w', h1, h2, h12, h13, ?_, ?_⟩
    · rintro ⟨ha, hd⟩
      have hcond : (((QVariant.string z.region != w.gs "locationRegion")
          || (QVariant.string z.zone != w.gs "locationZone"))
          && w.config.m_adjustLiveTimezone) = true := by
        simp only [Bool.and_eq_true, Bool.or_eq_true, bne_iff_ne, ne_eq]
        exact ⟨hd.imp (fun k e => k e.symm) (fun k e => k e.symm), ha⟩
      rw [h15, if_pos hcond]
    · intro hn
      have hcond : ¬ ((((QVariant.string z.region != w.gs "locationRegion")
          || (QVariant.string z.zone != w.gs "locationZone"))
          && w.config.m_adjustLiveTimezone) = true) := by
        intro hc
        apply hn
        simp only [Bool.and_eq_true, Bool.or_eq_true, bne_iff_ne, ne_eq] at hc
        exact ⟨hc.2, hc.1.imp (fun k e => k e.symm) (fun k e => k e.symm)⟩
      rw [h15, if_neg hcond]
  · intro location hl
    rw [hl]
    exact setCurrentLocation_same h w
  · intro ny hny fuel regionName zoneName
    exact setCurrentLocationByName_eq h ny hny regionName zoneName w fuel

theorem setCurrentLocation_updates_store_witness :
    (∃ w', setCurrentLocation sampleConfigHost (some sampleBerlin) sampleWorld = some w' ∧
        w'.config.m_currentLocation = some sampleBerlin ∧
        w'.gs "locationRegion" = QVariant.string sampleBerlin.region ∧
        w'.gs "locationZone" = QVariant.string sampleBerlin.zone ∧
        ((sampleWorld.config.m_adjustLiveTimezone = true ∧
            (sampleWorld.gs "locationRegion" ≠ QVariant.string sampleBerlin.region ∨
              sampleWorld.gs "locationZone" ≠ QVariant.string sampleBerlin.zone)) →
          w'.executed = sampleWorld.executed ++
            [{ program := "timedatectl".toList,
               arguments := ["set-timezone".toList,
                             sampleBerlin.region ++ ['/'] ++ sampleBerlin.zone] }]) ∧
        (¬ (sampleWorld.config.m_adjustLiveTimezone = true ∧
            (sampleWorld.gs "locationRegion" ≠ QVariant.string sampleBerlin.region ∨
              sampleWorld.gs "locationZone" ≠ QVariant.string sampleBerlin.zone)) →
          w'.executed = sampleWorld.executed)) ∧
    setCurrentLocation sampleConfigHost none sampleWorld = some sampleWorld ∧
    setCurrentLocationByName sampleConfigHost 2 "Europe".toList "Berlin".toList sampleWorld
      = setCurrentLocation sampleConfigHost
          (some ((lookupZone sampleConfigHost "Europe".toList "Berlin".toList).getD
            sampleNewYork)) sampleWorld :=
  ⟨(setCurrentLocation_updates_store sampleConfigHost sampleWorld).1 sampleBerlin (by decide),
   (setCurrentLocation_updates_store sampleConfigHost sampleWorld).2.1 none rfl,
   (setCurrentLocation_updates_store sampleConfigHost sampleWorld).2.2 sampleNewYork (by decide)
      0 "Europe".toList "Berlin".toList⟩

/-- Claim C10 at a failing input. With a location set, `setLCLocaleExplicitly`
and `setLanguageExplicitly` change what `localeConfiguration()` returns, but
no handler rewrites the entry `localeConf` of the storage: it keeps the map
written at the last change of location and differs from the map of the
current configuration. -/
theorem localeConf_stale_after_explicit_lc :
    (∃ w', run sampleConfigHost 2
        [Op.setCurrentLocation (some sampleBerlin),
         Op.setLCLocaleExplicitly "en_GB.UTF-8".toList] sampleWorld = some w' ∧
      w'.config.m_currentLocation = some sampleBerlin ∧
      w'.gs "localeConf"
        ≠ QVariant.map
            (sampleConfigHost.toMap (w'.config.localeConfiguration sampleConfigHost))) ∧
    (∃ w', run sampleConfigHost 2
        [Op.setCurrentLocation (some sampleBerlin),
         Op.setLanguageExplicitly "fr_FR.UTF-8".toList] sampleWorld = some w' ∧
      w'.config.m_currentLocation = some sampleBerlin ∧
      w'.gs "localeConf"
        ≠ QVariant.map
            (sampleConfigHost.toMap (w'.config.localeConfiguration sampleConfigHost))) :=
  ⟨⟨_, rfl, by decide, by decide⟩, ⟨_, rfl, by decide, by decide⟩⟩

end Calamares
